import Mathlib

/-!
Verification of the cosan router's core: the radix-tree matcher
(pkg/cosan/radix.go), the dispatch pipeline (router.go / hooks.go) and the
context pool (pool.go), shallowly embedded in Lean.

Conventions of the embedding:
- Go strings are `List Char`; Go maps from string are association lists with
  unique keys (`setParam` replaces in place, `delParam` removes the entry),
  mirroring assignment and `delete` on a `map[string]string`.
- Go's in-place mutation is explicit state passing: an inserting function
  returns the rebuilt node next to the error, as the mutated tree remains
  visible to the caller even when registration fails.
- Go's unbounded recursion is fuel-indexed structural recursion on `Nat`
  (the `rerr.outOfFuel` variant is an artifact of this embedding and is never
  produced when the fuel exceeds the recursion depth); every definition
  reduces, so concrete runs are settled by `rfl` or `decide`.
- The handler type is a parameter `H`: route-matching claims instantiate it
  with an opaque identifier (`Nat`), dispatch claims with a handler function.
-/

namespace Cosan

/-- Node kinds of the radix tree, from radix.go (`nodeType`). -/
inductive nodeType where
  | staticNode
  | paramNode
  | wildcardNode
deriving DecidableEq

/-- A registered route, from router.go (`route`): method, pattern and the
handler reference, created once at registration. -/
structure route (H : Type) where
  method : List Char
  pattern : List Char
  handler : H
deriving DecidableEq

/-- A node of the radix tree, from radix.go (`radixNode`): path segment text,
node type, parameter name, priority, optional terminal route, static and
parameter children, and the out-of-band wildcard child. -/
inductive radixNode (H : Type) : Type where
  | mk (path : List Char) (nType : nodeType) (paramName : List Char)
       (priority : Nat) (rt : Option (route H))
       (children : List (radixNode H)) (wildcard : Option (radixNode H))

/-- Path segment stored at the node. -/
def radixNode.path {H} : radixNode H → List Char
  | .mk p _ _ _ _ _ _ => p

/-- The node's type (static, parameter or wildcard). -/
def radixNode.nType {H} : radixNode H → nodeType
  | .mk _ t _ _ _ _ _ => t

/-- Parameter name bound at a parameter or wildcard node. -/
def radixNode.paramName {H} : radixNode H → List Char
  | .mk _ _ n _ _ _ _ => n

/-- Sort priority (100 static, 50 parameter, 10 wildcard). -/
def radixNode.priority {H} : radixNode H → Nat
  | .mk _ _ _ pr _ _ _ => pr

/-- The terminal route held at this node, when any. -/
def radixNode.route {H} : radixNode H → Option (Cosan.route H)
  | .mk _ _ _ _ r _ _ => r

/-- The node's static/parameter children, in insertion order. -/
def radixNode.children {H} : radixNode H → List (radixNode H)
  | .mk _ _ _ _ _ cs _ => cs

/-- The node's wildcard child, when any. -/
def radixNode.wildcard {H} : radixNode H → Option (radixNode H)
  | .mk _ _ _ _ _ _ w => w

/-- The node with its terminal route set (mirrors `node.route = r`). -/
def radixNode.withRoute {H} : radixNode H → Cosan.route H → radixNode H
  | .mk p t n pr _ cs w, r => .mk p t n pr (some r) cs w

/-- The node with its children list replaced. -/
def radixNode.withChildren {H} : radixNode H → List (radixNode H) → radixNode H
  | .mk p t n pr r _ w, cs => .mk p t n pr r cs w

/-- The node with its wildcard child set. -/
def radixNode.withWildcard {H} : radixNode H → radixNode H → radixNode H
  | .mk p t n pr r cs _, w => .mk p t n pr r cs (some w)

/-- Registration errors, from errors.go.  `outOfFuel` is an artifact of the
fuel-indexed embedding of Go's recursion and corresponds to no Go error. -/
inductive rerr where
  | conflicting
  | alreadyCompiled
  | outOfFuel
deriving DecidableEq

/-- Captured path parameters: the `map[string]string` of radix.go as an
association list with unique keys. -/
abbrev Params := List (List Char × List Char)

/-- Assignment `params[k] = v` on a Go string map: replace in place or append. -/
def setParam : Params → List Char → List Char → Params
  | [], k, v => [(k, v)]
  | (k0, v0) :: rest, k, v =>
      if k0 = k then (k, v) :: rest else (k0, v0) :: setParam rest k v

/-- `delete(params, k)` on a Go string map with unique keys. -/
def delParam : Params → List Char → Params
  | [], _ => []
  | (k0, v0) :: rest, k =>
      if k0 = k then rest else (k0, v0) :: delParam rest k

/-- `splitPath` from radix.go: the text before the first `/` and the text
after it (`(p, "")` when there is no slash, `("", "")` on the empty path). -/
def splitPath : List Char → List Char × List Char
  | [] => ([], [])
  | c :: rest =>
      if c = '/' then ([], rest)
      else
        let (seg, rem) := splitPath rest
        (c :: seg, rem)

/-- `strings.TrimPrefix(p, "/")`: drop one leading slash if present. -/
def trimSlash : List Char → List Char
  | '/' :: rest => rest
  | p => p

/-- `strings.HasPrefix(s, pre)`. -/
def startsWith : List Char → List Char → Bool
  | _, [] => true
  | [], _ :: _ => false
  | a :: s, b :: pre => a == b && startsWith s pre

/-- A fresh static node as insertStatic creates one (priority 100). -/
def freshStatic {H} (seg : List Char) : radixNode H :=
  .mk seg .staticNode [] 100 none [] none

/-- A fresh parameter node as insertParam creates one (priority 50). -/
def freshParam {H} (name : List Char) : radixNode H :=
  .mk [] .paramNode name 50 none [] none

/-- The static-child scan of `insertStatic` (radix.go): find the first static
child whose path prefixes the segment; descend with the remaining pattern on
an exact length match, or with the rest of the segment rejoined to the
remaining pattern on a partial match.  `none` when no child matches; the
inserting continuation `ins` stands for the recursive `insertRoute`. -/
def goStatic {H} (ins : radixNode H → List Char → Option rerr × radixNode H)
    (seg rem : List Char) :
    List (radixNode H) → Option (Option rerr × List (radixNode H))
  | [] => none
  | c :: rest =>
      if c.nType = .staticNode ∧ startsWith seg c.path = true then
        if c.path.length = seg.length then
          let (e, c2) := ins c rem
          some (e, c2 :: rest)
        else
          let (e, c2) := ins c (seg.drop c.path.length ++ '/' :: rem)
          some (e, c2 :: rest)
      else
        match goStatic ins seg rem rest with
        | some (e, rest2) => some (e, c :: rest2)
        | none => none

/-- The parameter-child scan of `insertParam` (radix.go): find the existing
parameter child with the same bound name and descend with the remaining
pattern; `none` when there is none. -/
def goParam {H} (ins : radixNode H → List Char → Option rerr × radixNode H)
    (name rem : List Char) :
    List (radixNode H) → Option (Option rerr × List (radixNode H))
  | [] => none
  | c :: rest =>
      if c.nType = .paramNode ∧ c.paramName = name then
        let (e, c2) := ins c rem
        some (e, c2 :: rest)
      else
        match goParam ins name rem rest with
        | some (e, rest2) => some (e, c :: rest2)
        | none => none

/-- `insertRoute` with its helpers `insertStatic`, `insertParam` and
`insertWildcard` (radix.go), fuel-indexed.  Returns the Go error next to the
rebuilt node (Go mutates the node in place, so the caller sees the new tree
even on error).  Wildcard insertion stores the route on the wildcard child
and ignores any remaining pattern, as the Go code does. -/
def insertRoute {H} : Nat → radixNode H → List Char → route H → Option rerr × radixNode H
  | 0 => fun node _ _ => (some .outOfFuel, node)
  | fuel + 1 => fun node pattern0 r =>
      let pattern := trimSlash pattern0
      if pattern = [] then
        match node.route with
        | some _ => (some .conflicting, node)
        | none => (none, node.withRoute r)
      else
        let (seg, rem) := splitPath pattern
        if seg.head? = some ':' then
          match goParam (fun n p => insertRoute fuel n p r) seg.tail rem node.children with
          | some (e, cs2) => (e, node.withChildren cs2)
          | none =>
              let (e, n2) := insertRoute fuel (freshParam seg.tail) rem r
              (e, node.withChildren (node.children ++ [n2]))
        else if seg.head? = some '*' then
          match node.wildcard with
          | some _ => (some .conflicting, node)
          | none =>
              (none, node.withWildcard (.mk [] .wildcardNode seg.tail 10 (some r) [] none))
        else
          match goStatic (fun n p => insertRoute fuel n p r) seg rem node.children with
          | some (e, cs2) => (e, node.withChildren cs2)
          | none =>
              let (e, n2) := insertRoute fuel (freshStatic seg) rem r
              (e, node.withChildren (node.children ++ [n2]))

/-- The static-children loop of `search` (radix.go): try each static child
whose path prefixes the remaining path with the boundary after it on `/` or
end of string; recurse, keep the first hit, and carry the parameter map
through failed attempts as the shared mutable map does in Go. -/
def searchStatic {H} (s : radixNode H → List Char → Params → Option (route H) × Params)
    (path : List Char) :
    List (radixNode H) → Params → Option (route H) × Params
  | [], params => (none, params)
  | c :: rest, params =>
      if c.nType = .staticNode ∧ startsWith path c.path = true then
        let remaining := path.drop c.path.length
        if remaining = [] ∨ remaining.head? = some '/' then
          match s c (trimSlash remaining) params with
          | (some r, params2) => (some r, params2)
          | (none, params2) => searchStatic s path rest params2
        else searchStatic s path rest params
      else searchStatic s path rest params

/-- The parameter-children loop of `search` (radix.go): bind the next
segment (when non-empty) under the child's name, recurse, and on failure
delete the binding and continue — the backtracking of the Go code. -/
def searchParam {H} (s : radixNode H → List Char → Params → Option (route H) × Params)
    (path : List Char) :
    List (radixNode H) → Params → Option (route H) × Params
  | [], params => (none, params)
  | c :: rest, params =>
      if c.nType = .paramNode then
        let (seg, rem) := splitPath path
        if seg = [] then searchParam s path rest params
        else
          match s c rem (setParam params c.paramName seg) with
          | (some r, params2) => (some r, params2)
          | (none, params2) => searchParam s path rest (delParam params2 c.paramName)
      else searchParam s path rest params

/-- `search` (radix.go), fuel-indexed: empty path returns the node's terminal
route; otherwise statics first, then parameters, then the wildcard, which
binds the entire remaining path and returns its route unconditionally. -/
def search {H} : Nat → radixNode H → List Char → Params → Option (route H) × Params
  | 0 => fun _ _ params => (none, params)
  | fuel + 1 => fun node path params =>
      if path = [] then (node.route, params)
      else
        match searchStatic (search fuel) path node.children params with
        | (some r, p1) => (some r, p1)
        | (none, p1) =>
            match searchParam (search fuel) path node.children p1 with
            | (some r, p2) => (some r, p2)
            | (none, p2) =>
                match node.wildcard with
                | some w => (w.route, setParam p2 w.paramName path)
                | none => (none, p2)

/-- The method-keyed tree map `m.trees` as an association list. -/
def lookupTree {H} : List (List Char × radixNode H) → List Char → Option (radixNode H)
  | [], _ => none
  | (k, t) :: rest, m => if k = m then some t else lookupTree rest m

/-- Store a method's tree (`m.trees[method] = tree`). -/
def setTree {H} : List (List Char × radixNode H) → List Char → radixNode H →
    List (List Char × radixNode H)
  | [], m, t => [(m, t)]
  | (k, t0) :: rest, m, t =>
      if k = m then (m, t) :: rest else (k, t0) :: setTree rest m t

/-- The matcher state, from radix.go (`radixMatcher`): one tree per method
and the compiled flag. -/
structure radixMatcher (H : Type) where
  trees : List (List Char × radixNode H)
  compiled : Bool

/-- `newRadixMatcher`: empty tree map, not compiled. -/
def newRadixMatcher {H} : radixMatcher H := ⟨[], false⟩

/-- The fresh per-method root `&radixNode{nType: staticNode}`. -/
def rootNode {H} : radixNode H := .mk [] .staticNode [] 0 none [] none

/-- `radixMatcher.Register` (radix.go): refuse after compilation, otherwise
create the route value, fetch or create the method tree, insert, and store
the (possibly partially mutated) tree back, returning insertion's error. -/
def Register {H} (fuel : Nat) (m : radixMatcher H) (method pattern : List Char)
    (h : H) : Option rerr × radixMatcher H :=
  if m.compiled then (some .alreadyCompiled, m)
  else
    let r : route H := ⟨method, pattern, h⟩
    let tree := (lookupTree m.trees method).getD rootNode
    let (e, tree2) := insertRoute fuel tree pattern r
    (e, ⟨setTree m.trees method tree2, m.compiled⟩)

/-- `radixMatcher.Match` (radix.go): look up the method tree, strip one
leading slash, search with a fresh parameter map; `none` is Go's
`(nil, nil, false)`. -/
def Match {H} (fuel : Nat) (m : radixMatcher H) (method path : List Char) :
    Option (route H × Params) :=
  match lookupTree m.trees method with
  | none => none
  | some tree =>
      match search fuel tree (trimSlash path) [] with
      | (some r, params) => some (r, params)
      | (none, _) => none

/-- The inner selection step of `sortByPriority`'s double loop (radix.go):
carry the running maximum, swapping whenever a later child has strictly
greater priority; displaced candidates stay at the position of the swap. -/
def selectMax {H} : radixNode H → List (radixNode H) → radixNode H × List (radixNode H)
  | x, [] => (x, [])
  | x, y :: ys =>
      if y.priority > x.priority then
        let (m, rest) := selectMax y ys
        (m, x :: rest)
      else
        let (m, rest) := selectMax x ys
        (m, y :: rest)

/-- The outer loop of the children sort, fuel-indexed by list length. -/
def sortChildrenFuel {H} : Nat → List (radixNode H) → List (radixNode H)
  | _, [] => []
  | 0, cs => cs
  | fuel + 1, x :: xs =>
      let (m, rest) := selectMax x xs
      m :: sortChildrenFuel fuel rest

/-- The children sort of `sortByPriority` (radix.go): the stable
selection-style sort of the node's children by descending priority. -/
def sortChildren {H} (cs : List (radixNode H)) : List (radixNode H) :=
  sortChildrenFuel cs.length cs

/-- `sortByPriority` (radix.go), fuel-indexed by tree depth: sort every
node's children by priority.  The Go code sorts a node's list before
recursing into the children; recursing first and then sorting, as done here,
yields the same tree because recursion leaves each child's priority intact. -/
def sortByPriority {H} : Nat → radixNode H → radixNode H
  | 0 => id
  | fuel + 1 => fun node =>
      node.withChildren (sortChildren (node.children.map (sortByPriority fuel)))

/-- `radixMatcher.Compile` (radix.go): a no-op returning success when already
compiled; otherwise sort every method tree by priority and set the flag.
Always returns Go's nil error. -/
def Compile {H} (fuel : Nat) (m : radixMatcher H) : Option rerr × radixMatcher H :=
  if m.compiled then (none, m)
  else (none, ⟨m.trees.map (fun kt => (kt.1, sortByPriority fuel kt.2)), true⟩)

/-! ### Concrete fixtures used by the claims about the matcher -/

/-- The GET method string. -/
def mGET : List Char := "GET".data

/-- An empty matcher over opaque handler identifiers. -/
def emptyN : radixMatcher Nat := newRadixMatcher

/-- Matcher holding the single static route GET `/ab` (handler 1). -/
def mAB : radixMatcher Nat := (Register 20 emptyN mGET "/ab".data 1).2

/-- `mAB` after also registering the static route GET `/abc` (handler 2),
whose final segment properly extends that of `/ab`. -/
def mABC : radixMatcher Nat := (Register 20 mAB mGET "/abc".data 2).2

/-- GET `/users/:id` (handler 2) registered before GET `/users/me`
(handler 1), then compiled. -/
def mUsersParamFirst : radixMatcher Nat :=
  (Compile 20 (Register 20 (Register 20 emptyN mGET "/users/:id".data 2).2
    mGET "/users/me".data 1).2).2

/-- GET `/users/me` (handler 1) registered before GET `/users/:id`
(handler 2), then compiled. -/
def mUsersStaticFirst : radixMatcher Nat :=
  (Compile 20 (Register 20 (Register 20 emptyN mGET "/users/me".data 1).2
    mGET "/users/:id".data 2).2).2

/-- Matcher holding the single route GET `/users/:id` (handler 7). -/
def mUsersId : radixMatcher Nat := (Register 20 emptyN mGET "/users/:id".data 7).2

/-- GET `/files/:name` (handler 4) registered before GET `/files/*rest`
(handler 5), then compiled: a parameter child and a wildcard coexist at the
`files` node. -/
def mFilesParamFirst : radixMatcher Nat :=
  (Compile 20 (Register 20 (Register 20 emptyN mGET "/files/:name".data 4).2
    mGET "/files/*rest".data 5).2).2

/-- GET `/files/*rest` (handler 5) registered before GET `/files/:name`
(handler 4), then compiled. -/
def mFilesWildFirst : radixMatcher Nat :=
  (Compile 20 (Register 20 (Register 20 emptyN mGET "/files/*rest".data 5).2
    mGET "/files/:name".data 4).2).2

/-- Matcher holding the single wildcard route GET `/files/*path` (handler 3). -/
def mFiles : radixMatcher Nat := (Register 20 emptyN mGET "/files/*path".data 3).2

/-- Matcher after registering GET `/files/*path/extra` (handler 5), a pattern
with a segment after the wildcard. -/
def mFilesExtra : radixMatcher Nat :=
  (Register 20 emptyN mGET "/files/*path/extra".data 5).2

/-! ### The dispatch pipeline (router.go `ServeHTTP`, hooks.go)

The response stream is modelled as the list of writes a handler or the
dispatch layer performs; handlers are functions from the request context to
the new context plus Go's error return, modelled by its message. -/

/-- One write observed on the `http.ResponseWriter`: a status code or a body
chunk (headers are not modelled; no claim concerns them). -/
inductive Write where
  | status (code : Nat)
  | chunk (text : List Char)
deriving DecidableEq

/-- The request context as dispatch uses it (`newContext` in context.go):
the captured path parameters and the response writes so far.  The free-form
value bag plays no role in these claims. -/
structure HCtx where
  params : Params
  writes : List Write
deriving DecidableEq

/-- `HandlerFunc`: a function of the context returning Go's error, with its
response writes made explicit in the returned context. -/
abbrev HandlerFn := HCtx → HCtx × Option (List Char)

/-- `Middleware`: `Process` maps the next handler to the wrapped handler;
`MiddlewareFunc.Process` is function application, so middleware is embedded
directly as a function on handlers. -/
abbrev MWfn := HandlerFn → HandlerFn

/-- `ErrorHandler` (hooks.go): consumes the context and the error. -/
abbrev ErrHandlerFn := HCtx → List Char → HCtx

/-- The router's hook record (hooks.go), restricted to the error handler
these claims concern. -/
structure hooksV where
  errorHandler : Option ErrHandlerFn

/-- The router state `ServeHTTP` reads: globally registered middleware in
registration order, and the optional hooks record. -/
structure routerV where
  middleware : List MWfn
  hooks : Option hooksV

/-- `Use` (router.go): append the new middleware to the registration list. -/
def useMW (r : routerV) (ms : List MWfn) : routerV :=
  { r with middleware := r.middleware ++ ms }

/-- `SetErrorHandler` (hooks.go): install a custom error handler. -/
def setErrorHandler (r : routerV) (eh : ErrHandlerFn) : routerV :=
  { r with hooks := some ⟨some eh⟩ }

/-- `ctx.String(code, text)`: write the status then the text. -/
def ctxString (ctx : HCtx) (code : Nat) (text : List Char) : HCtx :=
  { ctx with writes := ctx.writes ++ [.status code, .chunk text] }

/-- `handleError` (hooks.go): use the custom error handler when one is set,
otherwise `ctx.String(500, "Internal Server Error: " + err)`.  `ServeHTTP`
never calls this function. -/
def handleError (r : routerV) (ctx : HCtx) (msg : List Char) : HCtx :=
  match r.hooks with
  | some hk =>
      match hk.errorHandler with
      | some eh => eh ctx msg
      | none => ctxString ctx 500 ("Internal Server Error: ".data ++ msg)
  | none => ctxString ctx 500 ("Internal Server Error: ".data ++ msg)

/-- The middleware-wrapping loop of `ServeHTTP` (router.go): iterate the
registered list from the last index down to the first, each step replacing
the handler by that middleware's `Process` of it. -/
def composeMiddleware {α : Type} (mws : List (α → α)) (h : α) : α :=
  mws.reverse.foldl (fun acc mw => mw acc) h

/-- What `ServeHTTP` leaves on the wire: the fixed not-found response, or the
writes of the (wrapped) handler and the dispatch layer's error branch. -/
inductive ServeResult where
  | notFound
  | served (ctx : HCtx)

/-- `ServeHTTP` (router.go): match method and path; on a miss write the fixed
404; otherwise create a fresh context bound to the captured parameters, wrap
the route's handler with every registered middleware (first registered
outermost), run it, and if it returns a non-nil error write
`http.Error(w, err.Error(), 500)` — a 500 status and the message plus a
newline.  The hooks record is never consulted here. -/
def serveHTTP (fuel : Nat) (r : routerV) (m : radixMatcher HandlerFn)
    (method path : List Char) : ServeResult :=
  match Match fuel m method path with
  | none => .notFound
  | some (rt, captured) =>
      let ctx : HCtx := { params := captured, writes := [] }
      let handler := composeMiddleware r.middleware rt.handler
      let (ctx2, err) := handler ctx
      match err with
      | some msg =>
          .served { ctx2 with writes := ctx2.writes ++ [.status 500, .chunk (msg ++ ['\n'])] }
      | none => .served ctx2

/-! ### The context pool (pool.go) and the pooled dispatch -/

/-- The pooled request context (context.go / pool.go): parameter map, value
bag, and the request/response handles, modelled by a path and a numeric
identifier. -/
structure poolCtx where
  params : Params
  values : List (List Char × Nat)
  req : Option (List Char)
  res : Option Nat
deriving DecidableEq

/-- `acquireContext` (pool.go): take a previously released instance from the
pool — `sync.Pool` modelled as a free list — or allocate a fresh one with
empty maps, then bind the request and response handles. -/
def acquireContext (pool : List poolCtx) (w : Nat) (r : List Char) :
    poolCtx × List poolCtx :=
  match pool with
  | c :: rest => ({ c with req := some r, res := some w }, rest)
  | [] => ({ params := [], values := [], req := some r, res := some w }, [])

/-- `releaseContext` (pool.go): delete every parameter and value entry,
clear both handle references, and put the context back in the pool. -/
def releaseContext (ctx : poolCtx) (pool : List poolCtx) : List poolCtx :=
  { ctx with params := [], values := [], req := none, res := none } :: pool

/-- What the handler body does with the pooled context: finish normally,
return a non-nil error, or panic. -/
inductive HOutcome where
  | ok
  | failed (msg : List Char)
  | panicked (info : List Char)

/-- How one dispatched request ends: normal completion, an error turned over
to error handling, or a propagated panic. -/
inductive ServeExit where
  | completed
  | errorHandled (msg : List Char)
  | panicPropagated (info : List Char)

/-- Modelled from the spec: the root-package `Serve` that binds the context
pool into dispatch is not among the sources — only pool.go, its tests and an
older dispatch that predates pooling are — so steps (3) and (7) of the
dispatch sequence are modelled from the spec's words: acquire a
RequestContext from the pool, binding it to the raw handles and the captured
parameters, run the effective handler, and release the context back to the
pool on every exit path, a panic included, via a cleanup scoped to run
regardless of how the handler leaves.  `acquireContext` and `releaseContext`
are the embeddings of pool.go above. -/
def ServePooled (pool : List poolCtx) (w : Nat) (reqPath : List Char)
    (captured : Params) (handler : poolCtx → HOutcome × poolCtx) :
    ServeExit × List poolCtx :=
  let acq := acquireContext pool w reqPath
  let ctx0 := { acq.1 with params := captured }
  let (outcome, ctx1) := handler ctx0
  match outcome with
  | .ok => (.completed, releaseContext ctx1 acq.2)
  | .failed msg => (.errorHandled msg, releaseContext ctx1 acq.2)
  | .panicked info => (.panicPropagated info, releaseContext ctx1 acq.2)

/-! ### Fixtures for the dispatch claims -/

/-- A handler that writes nothing and fails with the message `boom`. -/
def failingHandler : HandlerFn := fun ctx => (ctx, some "boom".data)

/-- A custom error handler writing status 418 and a tagged message. -/
def customErrHandler : ErrHandlerFn := fun ctx msg =>
  ctxString ctx 418 ("Custom: ".data ++ msg)

/-- A router with no middleware and `customErrHandler` installed via
`SetErrorHandler`. -/
def routerWithCustomEH : routerV := setErrorHandler ⟨[], none⟩ customErrHandler

/-- Matcher holding the single route GET `/error` whose handler fails. -/
def mError : radixMatcher HandlerFn :=
  (Register 20 newRadixMatcher mGET "/error".data failingHandler).2

/-- A middleware that tags the write stream on the way in and out. -/
def mwTag (t : List Char) : MWfn := fun next ctx =>
  let stepIn := { ctx with writes := ctx.writes ++ [.chunk (t ++ "-in".data)] }
  let (ctx2, e) := next stepIn
  ({ ctx2 with writes := ctx2.writes ++ [.chunk (t ++ "-out".data)] }, e)

/-- A handler that records one write and succeeds. -/
def okHandler : HandlerFn := fun ctx =>
  ({ ctx with writes := ctx.writes ++ [.chunk "handler".data] }, none)

/-- Matcher holding the single route GET `/t` with `okHandler`. -/
def mTrace : radixMatcher HandlerFn :=
  (Register 20 newRadixMatcher mGET "/t".data okHandler).2

/-- Router with the middlewares `m1` then `m2` registered via `Use`, in that
order. -/
def routerTrace : routerV :=
  useMW (useMW ⟨[], none⟩ [mwTag "m1".data]) [mwTag "m2".data]

/-- The route value stored for GET `/users/:id` with handler 7. -/
def idRoute : route Nat := ⟨mGET, "/users/:id".data, 7⟩

/-- The parameter node `:id` of `mUsersId`, carrying its terminal route. -/
def userParamChild : radixNode Nat :=
  .mk [] .paramNode "id".data 50 (some idRoute) [] none

/-- The static node `users` of `mUsersId`. -/
def userStaticChild : radixNode Nat :=
  .mk "users".data .staticNode [] 100 none [userParamChild] none

/-- The root of `mUsersId`'s GET tree; `mUsersId` computes to exactly
`⟨[(mGET, userTree)], false⟩`, wired by `rfl` in the proofs below. -/
def userTree : radixNode Nat := .mk [] .staticNode [] 0 none [userStaticChild] none

/-! ### Theorems for the claims -/

/-- `splitPath` on a slash-free path returns the whole path and an empty
remainder. -/
theorem splitPath_no_slash (s : List Char) (h : ('/' : Char) ∉ s) :
    splitPath s = (s, []) := by
  induction s with
  | nil => rfl
  | cons c rest ih =>
      have hc : c ≠ '/' := fun e => h (e ▸ List.mem_cons_self c rest)
      have hr : ('/' : Char) ∉ rest := fun e => h (List.mem_cons_of_mem c e)
      simp [splitPath, hc, ih hr]

/-- Every list is a prefix of itself extended by anything. -/
theorem startsWith_append (p t : List Char) : startsWith (p ++ t) p = true := by
  induction p with
  | nil => cases t <;> rfl
  | cons c rest ih => simp [startsWith, ih]

/-- One-step unfolding of `search` on a non-empty path. -/
theorem search_succ_ne_nil {H : Type} (f : Nat) (node : radixNode H) (path : List Char)
    (ps : Params) (h : path ≠ []) :
    search (f+1) node path ps =
      (match searchStatic (search f) path node.children ps with
       | (some r, p1) => (some r, p1)
       | (none, p1) =>
           match searchParam (search f) path node.children p1 with
           | (some r, p2) => (some r, p2)
           | (none, p2) =>
               match node.wildcard with
               | some w => (w.route, setParam p2 w.paramName path)
               | none => (none, p2)) := by
  simp only [search]
  rw [if_neg h]

/-- On an exhausted path, `search` returns the node's terminal route. -/
theorem search_succ_nil {H : Type} (f : Nat) (node : radixNode H) (ps : Params) :
    search (f+1) node [] ps = (node.route, ps) := by
  simp only [search]
  rw [if_pos trivial]

/-- The parameter loop on `mUsersId`'s tree binds `id` to any non-empty
slash-free segment. -/
theorem searchParam_userParamChild (s : List Char) (h1 : s ≠ [])
    (h2 : ('/' : Char) ∉ s) :
    searchParam (search 18) s [userParamChild] [] =
      (some idRoute, [("id".data, s)]) := by
  simp only [searchParam]
  rw [if_pos (show userParamChild.nType = .paramNode from rfl),
    splitPath_no_slash s h2]
  rw [if_neg h1]
  rw [show (18:Nat) = 17+1 from rfl, search_succ_nil]
  rfl

/-- The static loop skips the parameter child of the `users` node. -/
theorem searchStatic_userParamChild (s : List Char) :
    searchStatic (search 18) s [userParamChild] [] = (none, []) := by
  simp only [searchStatic]
  rw [if_neg (fun hcon => nodeType.noConfusion hcon.1)]

/-- Below the `users` node, any non-empty slash-free remainder resolves to
the parameter route with `id` bound to it. -/
theorem search_userStaticChild (s : List Char) (h1 : s ≠ [])
    (h2 : ('/' : Char) ∉ s) :
    search 19 userStaticChild s [] = (some idRoute, [("id".data, s)]) := by
  rw [show (19:Nat) = 18+1 from rfl, search_succ_ne_nil 18 _ _ _ h1]
  rw [show userStaticChild.children = [userParamChild] from rfl]
  rw [searchStatic_userParamChild s]
  dsimp only
  rw [searchParam_userParamChild s h1 h2]

/-- **C7**: with GET `/users/:id` registered, `Match` on `/users/` followed by
an arbitrary non-empty string containing no `/` succeeds and returns that
route with `params[id]` equal to exactly that string, while an empty segment
at the parameter position does not match. -/
theorem param_matches_any_slash_free_string :
    (∀ s : List Char, s ≠ [] → ('/' : Char) ∉ s →
      Match 20 mUsersId mGET ("/users/".data ++ s) =
        some (⟨mGET, "/users/:id".data, 7⟩, [("id".data, s)])) ∧
    Match 20 mUsersId mGET "/users/".data = none := by
  refine ⟨fun s h1 h2 => ?_, rfl⟩
  have hm : mUsersId = ⟨[(mGET, userTree)], false⟩ := rfl
  have htrim : trimSlash ("/users/".data ++ s) = "users".data ++ '/' :: s := rfl
  have hne : ("users".data ++ '/' :: s : List Char) ≠ [] := by
    intro h
    exact List.noConfusion h
  rw [hm]
  simp only [Match, lookupTree]
  rw [if_pos trivial, htrim]
  dsimp only
  rw [show (20:Nat) = 19+1 from rfl, search_succ_ne_nil 19 _ _ _ hne]
  rw [show userTree.children = [userStaticChild] from rfl]
  simp only [searchStatic]
  rw [if_pos (⟨rfl, startsWith_append "users".data ('/' :: s)⟩ :
        userStaticChild.nType = nodeType.staticNode ∧
        startsWith ("users".data ++ '/' :: s) userStaticChild.path = true)]
  rw [show ("users".data ++ '/' :: s).drop userStaticChild.path.length = '/' :: s from
        List.drop_left "users".data ('/' :: s)]
  rw [if_pos (Or.inr rfl : '/' :: s = [] ∨ ('/' :: s).head? = some '/')]
  rw [show trimSlash ('/' :: s) = s from rfl]
  rw [search_userStaticChild s h1 h2]
  rfl

/-- Witness for **C7** at the concrete segment `42`: the hypotheses hold and
the parameter route is returned with `id = 42`. -/
theorem param_matches_witness :
    ("42".data ≠ ([] : List Char)) ∧ (('/' : Char) ∉ "42".data) ∧
    Match 20 mUsersId mGET ("/users/".data ++ "42".data) =
      some (⟨mGET, "/users/:id".data, 7⟩, [("id".data, "42".data)]) :=
  ⟨by decide, by decide,
    param_matches_any_slash_free_string.1 "42".data (by decide) (by decide)⟩

/-- **C1** (code_bug evidence): when one static pattern's final segment is a
proper string prefix of another's, the claimed behavior fails.  GET `/ab` and
GET `/abc` both register without error, yet `Match(GET, /abc)` finds nothing:
`insertStatic` hangs the diverging suffix `c` as a child of the node `ab`,
and `search` only crosses a child edge when the boundary after its label is
`/` or end of path, so the route registered as `/abc` is unreachable at
`/abc` — it is instead served at `/ab/c` with an injected slash. -/
theorem static_prefix_route_unreachable :
    (Register 20 emptyN mGET "/ab".data 1).1 = none ∧
    (Register 20 mAB mGET "/abc".data 2).1 = none ∧
    Match 20 mABC mGET "/abc".data = none ∧
    Match 20 (Compile 20 mABC).2 mGET "/abc".data = none ∧
    Match 20 mABC mGET "/ab".data = some (⟨mGET, "/ab".data, 1⟩, []) ∧
    Match 20 mABC mGET "/ab/c".data = some (⟨mGET, "/abc".data, 2⟩, []) := by
  exact ⟨rfl, rfl, rfl, rfl, rfl, rfl⟩

/-- **C4** (counterexample): `Register` does accept a pattern in which a
segment follows the `*name` segment — registering GET `/files/*path/extra`
returns no error, and the resulting route is reachable exactly as if the
post-wildcard segment were absent, with `path` capturing the remainder. -/
theorem register_accepts_segments_after_wildcard :
    (Register 20 emptyN mGET "/files/*path/extra".data 5).1 = none ∧
    Match 20 mFilesExtra mGET "/files/a/b".data =
      some (⟨mGET, "/files/*path/extra".data, 5⟩, [("path".data, "a/b".data)]) := by
  exact ⟨rfl, rfl⟩

/-- **C4** (amended): `insertWildcard` silently discards everything after the
`*name` segment: registration succeeds with no error, the wildcard child
carries the route itself and no children beneath it, and the pattern behaves
exactly like `prefix/*name` — the bare prefix does not match and any
non-empty remainder is captured under `path`. -/
theorem wildcard_trailing_segments_ignored :
    (Register 20 emptyN mGET "/files/*path/extra".data 5).1 = none ∧
    (∃ t, lookupTree mFilesExtra.trees mGET = some t ∧
      ∃ c, t.children = [c] ∧ c.path = "files".data ∧
      ∃ w, c.wildcard = some w ∧ w.paramName = "path".data ∧
        w.children = [] ∧ w.route = some ⟨mGET, "/files/*path/extra".data, 5⟩) ∧
    Match 20 mFilesExtra mGET "/files".data = none ∧
    Match 20 mFilesExtra mGET "/files/a/b".data =
      some (⟨mGET, "/files/*path/extra".data, 5⟩, [("path".data, "a/b".data)]) := by
  refine ⟨rfl, ⟨_, rfl, _, rfl, rfl, _, rfl, rfl, rfl, rfl⟩, rfl, rfl⟩

/-- **C5**: among overlapping candidates a static match beats a parameter
match and a parameter match beats a wildcard match, independently of
registration order.  With GET `/users/:id` and GET `/users/me` registered in
either order and compiled, `/users/me` resolves to the static route with an
empty parameter map while `/users/42` resolves to the parameter route with
`id = 42`; and with GET `/files/:name` and GET `/files/*rest` registered in
either order and compiled, the single-segment `/files/abc` resolves to the
parameter route with `name = abc` — the wildcard, though able to match, is
consulted only after the parameter children — while `/files/a/b`, which no
parameter route can complete, falls through to the wildcard with
`rest = a/b`. -/
theorem static_beats_param_beats_wildcard_both_orders :
    Match 20 mUsersParamFirst mGET "/users/me".data =
      some (⟨mGET, "/users/me".data, 1⟩, []) ∧
    Match 20 mUsersStaticFirst mGET "/users/me".data =
      some (⟨mGET, "/users/me".data, 1⟩, []) ∧
    Match 20 mUsersParamFirst mGET "/users/42".data =
      some (⟨mGET, "/users/:id".data, 2⟩, [("id".data, "42".data)]) ∧
    Match 20 mUsersStaticFirst mGET "/users/42".data =
      some (⟨mGET, "/users/:id".data, 2⟩, [("id".data, "42".data)]) ∧
    Match 20 mFilesParamFirst mGET "/files/abc".data =
      some (⟨mGET, "/files/:name".data, 4⟩, [("name".data, "abc".data)]) ∧
    Match 20 mFilesWildFirst mGET "/files/abc".data =
      some (⟨mGET, "/files/:name".data, 4⟩, [("name".data, "abc".data)]) ∧
    Match 20 mFilesParamFirst mGET "/files/a/b".data =
      some (⟨mGET, "/files/*rest".data, 5⟩, [("rest".data, "a/b".data)]) ∧
    Match 20 mFilesWildFirst mGET "/files/a/b".data =
      some (⟨mGET, "/files/*rest".data, 5⟩, [("rest".data, "a/b".data)]) := by
  exact ⟨rfl, rfl, rfl, rfl, rfl, rfl, rfl, rfl⟩

/-- **C10**: a wildcard never matches an empty remainder.  With
GET `/files/*path` registered, the bare prefix `/files` and the
slash-terminated `/files/` both fail to match — the walk reaches the `files`
node with no remaining path and returns its absent terminal route before any
wildcard is consulted — while a non-empty suffix is captured whole. -/
theorem wildcard_requires_nonempty_suffix :
    Match 20 mFiles mGET "/files".data = none ∧
    Match 20 mFiles mGET "/files/".data = none ∧
    Match 20 mFiles mGET "/files/a/b.txt".data =
      some (⟨mGET, "/files/*path".data, 3⟩, [("path".data, "a/b.txt".data)]) := by
  exact ⟨rfl, rfl, rfl⟩

/-- **C9**: once `Compile` has run, every `Register` fails with the
`alreadyCompiled` error and returns the matcher unchanged — so `Match` is
unaffected for every previously registered route — and `Compile` itself
always succeeds and is a no-op when repeated. -/
theorem register_after_compile_rejected {H : Type} (f g : Nat) (m : radixMatcher H)
    (method pattern : List Char) (h : H) :
    (Compile f m).1 = none ∧
    Register g (Compile f m).2 method pattern h =
      (some .alreadyCompiled, (Compile f m).2) ∧
    Compile g (Compile f m).2 = (none, (Compile f m).2) ∧
    (∀ k method2 path2,
      Match k (Register g (Compile f m).2 method pattern h).2 method2 path2 =
        Match k (Compile f m).2 method2 path2) := by
  have hc : ((Compile f m).2).compiled = true := by
    unfold Compile
    by_cases hm : m.compiled
    · simp [hm]
    · simp [hm]
  have hreg : ∀ (m2 : radixMatcher H), m2.compiled = true →
      Register g m2 method pattern h = (some .alreadyCompiled, m2) := by
    intro m2 h2
    unfold Register
    simp [h2]
  have hcomp : ∀ (m2 : radixMatcher H), m2.compiled = true →
      Compile g m2 = (none, m2) := by
    intro m2 h2
    unfold Compile
    simp [h2]
  refine ⟨?_, hreg _ hc, hcomp _ hc, ?_⟩
  · unfold Compile
    by_cases hm : m.compiled <;> simp [hm]
  · intro k method2 path2
    rw [hreg _ hc]

/-- **C2** (code_bug evidence): with a custom error handler installed via
`SetErrorHandler` and a matched handler returning the error `boom`, dispatch
still produces the default response — status 500 with the error's message —
because `ServeHTTP` writes `http.Error` directly and never calls
`handleError`; the second conjunct shows what the configured handler would
have produced had dispatch delegated as the claim states. -/
theorem dispatch_ignores_custom_error_handler :
    serveHTTP 20 routerWithCustomEH mError mGET "/error".data =
      .served ⟨[], [.status 500, .chunk ("boom".data ++ ['\n'])]⟩ ∧
    handleError routerWithCustomEH ⟨[], []⟩ "boom".data =
      ⟨[], [.status 418, .chunk "Custom: boom".data]⟩ := by
  exact ⟨rfl, rfl⟩

/-- **C3**: the pooled dispatch acquires its RequestContext from the pool,
binds it to the request and response handles and the captured parameters,
and on every exit path — normal return, handler error, and panic — releases
the cleared context back to the pool: the resulting pool always starts with
the zeroed context on top of what acquisition left. -/
theorem pooled_dispatch_releases_on_every_exit (pool : List poolCtx) (w : Nat)
    (p : List Char) (ps : Params) (handler : poolCtx → HOutcome × poolCtx) :
    ((ServePooled pool w p ps handler).2 =
      ⟨[], [], none, none⟩ :: (acquireContext pool w p).2) ∧
    (({ (acquireContext pool w p).1 with params := ps } : poolCtx).req = some p ∧
      ({ (acquireContext pool w p).1 with params := ps } : poolCtx).res = some w ∧
      ({ (acquireContext pool w p).1 with params := ps } : poolCtx).params = ps) ∧
    (∀ (info : List Char) (hf : poolCtx → poolCtx),
      ServePooled pool w p ps (fun c => (.panicked info, hf c)) =
      (.panicPropagated info, ⟨[], [], none, none⟩ :: (acquireContext pool w p).2)) ∧
    (∀ (msg : List Char) (hf : poolCtx → poolCtx),
      ServePooled pool w p ps (fun c => (.failed msg, hf c)) =
      (.errorHandled msg, ⟨[], [], none, none⟩ :: (acquireContext pool w p).2)) ∧
    (∀ (hf : poolCtx → poolCtx),
      ServePooled pool w p ps (fun c => (.ok, hf c)) =
      (.completed, ⟨[], [], none, none⟩ :: (acquireContext pool w p).2)) := by
  have hrel : ∀ (c : poolCtx) (pl : List poolCtx),
      releaseContext c pl = ⟨[], [], none, none⟩ :: pl := by
    intro c pl
    obtain ⟨cp, cv, cr, cs⟩ := c
    rfl
  refine ⟨?_, ?_, ?_, ?_, ?_⟩
  · unfold ServePooled
    rcases hh : handler { (acquireContext pool w p).1 with params := ps } with ⟨o, c1⟩
    cases o <;> simp [hh, hrel]
  · cases pool <;> exact ⟨rfl, rfl, rfl⟩
  · intro info hf
    unfold ServePooled
    simp [hrel]
  · intro msg hf
    unfold ServePooled
    simp [hrel]
  · intro hf
    unfold ServePooled
    simp [hrel]

/-- **C6**: the middleware-wrapping loop of dispatch composes the effective
handler as the nested application `m1 (m2 (… (mn h)))` — the first
registered middleware is outermost — `Use` accumulates middleware in
registration order, and a traced run shows request-side code firing in
registration order and response-side code unwinding in reverse. -/
theorem middleware_first_registered_outermost :
    (∀ (α : Type) (mws : List (α → α)) (h : α),
      composeMiddleware mws h = mws.foldr (fun mw acc => mw acc) h) ∧
    routerTrace.middleware = [mwTag "m1".data, mwTag "m2".data] ∧
    serveHTTP 20 routerTrace mTrace mGET "/t".data =
      .served ⟨[], [.chunk "m1-in".data, .chunk "m2-in".data,
        .chunk "handler".data, .chunk "m2-out".data, .chunk "m1-out".data]⟩ := by
  refine ⟨?_, rfl, rfl⟩
  intro α mws h
  induction mws with
  | nil => rfl
  | cons mw ms ih =>
      unfold composeMiddleware at ih ⊢
      rw [List.reverse_cons, List.foldl_append, List.foldl_cons, List.foldl_nil, ih]
      rfl


/-- Replacing children leaves the node's path unchanged. -/
theorem path_withChildren {H} (n : radixNode H) (cs : List (radixNode H)) :
    (n.withChildren cs).path = n.path := by
  cases n
  rfl

/-- Replacing children leaves the node's type unchanged. -/
theorem nType_withChildren {H} (n : radixNode H) (cs : List (radixNode H)) :
    (n.withChildren cs).nType = n.nType := by
  cases n
  rfl

/-- Replacing children leaves the bound parameter name unchanged. -/
theorem paramName_withChildren {H} (n : radixNode H) (cs : List (radixNode H)) :
    (n.withChildren cs).paramName = n.paramName := by
  cases n
  rfl

/-- Replacing children installs exactly the new list. -/
theorem children_withChildren {H} (n : radixNode H) (cs : List (radixNode H)) :
    (n.withChildren cs).children = cs := by
  cases n
  rfl

/-- Replacing children leaves the terminal route unchanged. -/
theorem route_withChildren {H} (n : radixNode H) (cs : List (radixNode H)) :
    (n.withChildren cs).route = n.route := by
  cases n
  rfl

/-- Replacing children leaves the wildcard child unchanged. -/
theorem wildcard_withChildren {H} (n : radixNode H) (cs : List (radixNode H)) :
    (n.withChildren cs).wildcard = n.wildcard := by
  cases n
  rfl

/-- Setting the terminal route stores it. -/
theorem route_withRoute {H} (n : radixNode H) (r : route H) :
    (n.withRoute r).route = some r := by
  cases n
  rfl

/-- Setting the wildcard child stores it. -/
theorem wildcard_withWildcard {H} (n w : radixNode H) :
    (n.withWildcard w).wildcard = some w := by
  cases n
  rfl

/-- Consecutive children replacements keep only the last. -/
theorem withChildren_withChildren {H} (n : radixNode H) (cs cs2 : List (radixNode H)) :
    (n.withChildren cs).withChildren cs2 = n.withChildren cs2 := by
  cases n
  rfl

/-- Reinstalling a node's own children is the identity. -/
theorem withChildren_self {H} (n : radixNode H) :
    n.withChildren n.children = n := by
  cases n
  rfl

/-- Insertion never changes the path, type or parameter name of the node it
is called on: every branch of `insertRoute` returns the node itself or the
node with only its route, children or wildcard replaced. -/
theorem insert_meta {H} (f : Nat) (node : radixNode H) (p : List Char) (r : route H) :
    (insertRoute f node p r).2.path = node.path ∧
    (insertRoute f node p r).2.nType = node.nType ∧
    (insertRoute f node p r).2.paramName = node.paramName := by
  cases f with
  | zero => exact ⟨rfl, rfl, rfl⟩
  | succ f =>
      simp only [insertRoute]
      split
      · split
        · exact ⟨rfl, rfl, rfl⟩
        · obtain ⟨a, b, c, d, rt, cs, w⟩ := node
          exact ⟨rfl, rfl, rfl⟩
      · split
        · split
          · obtain ⟨a, b, c, d, rt, cs, w⟩ := node
            exact ⟨rfl, rfl, rfl⟩
          · obtain ⟨a, b, c, d, rt, cs, w⟩ := node
            exact ⟨rfl, rfl, rfl⟩
        · split
          · split
            · exact ⟨rfl, rfl, rfl⟩
            · obtain ⟨a, b, c, d, rt, cs, w⟩ := node
              exact ⟨rfl, rfl, rfl⟩
          · split
            · obtain ⟨a, b, c, d, rt, cs, w⟩ := node
              exact ⟨rfl, rfl, rfl⟩
            · obtain ⟨a, b, c, d, rt, cs, w⟩ := node
              exact ⟨rfl, rfl, rfl⟩


/-- Inserting into a bare node — no route, no children, no wildcard, as
every freshly created node starts — can never report a conflict: conflicts
only arise from pre-existing routes or wildcards. -/
theorem insert_clean_no_conflict {H} :
    ∀ (f : Nat) (a : List Char) (b : nodeType) (c : List Char) (d : Nat)
      (p : List Char) (r : route H),
      (insertRoute f (.mk a b c d none [] none) p r).1 ≠ some .conflicting := by
  intro f
  induction f with
  | zero =>
      intro a b c d p r h
      exact rerr.noConfusion (Option.some.injEq _ _ ▸ h)
  | succ f ih =>
      intro a b c d p r
      simp only [insertRoute, radixNode.route, radixNode.children, radixNode.wildcard,
        goStatic, goParam]
      split
      · intro h
        exact Option.noConfusion h
      · split
        · exact ih _ _ _ _ _ _
        · split
          · intro h
            exact Option.noConfusion h
          · exact ih _ _ _ _ _ _


/-- Conflict atomicity at the node level: an insertion that reports a
conflict returns the tree exactly as it was.  A conflict is only discovered
at a pre-existing terminal or wildcard, before any node has been added. -/
theorem insert_conflict_unchanged {H} :
    ∀ (f : Nat) (node : radixNode H) (p : List Char) (r : route H),
      (insertRoute f node p r).1 = some .conflicting →
      (insertRoute f node p r).2 = node := by
  intro f
  induction f with
  | zero =>
      intro node p r h
      exact absurd (Option.some.inj h) (fun hh => rerr.noConfusion hh)
  | succ f ih =>
      intro node p r
      have hgp : ∀ (name rem : List Char) (cs : List (radixNode H))
          (e : Option rerr) (cs2 : List (radixNode H)),
          goParam (fun n p2 => insertRoute f n p2 r) name rem cs = some (e, cs2) →
          e = some .conflicting → cs2 = cs := by
        intro name rem cs
        induction cs with
        | nil =>
            intro e cs2 h _
            exact Option.noConfusion h
        | cons c rest ihl =>
            intro e cs2 h he
            simp only [goParam] at h
            split at h
            · obtain ⟨he1, he2⟩ := Prod.mk.injEq .. ▸ Option.some.inj h
              subst he1 he2
              rw [ih c rem r he]
            · split at h
              · rename_i e2 rest2 heq
                obtain ⟨he1, he2⟩ := Prod.mk.injEq .. ▸ Option.some.inj h
                rw [← he2, ihl e2 rest2 heq (he1.trans he)]
              · exact Option.noConfusion h
      have hgs : ∀ (seg rem : List Char) (cs : List (radixNode H))
          (e : Option rerr) (cs2 : List (radixNode H)),
          goStatic (fun n p2 => insertRoute f n p2 r) seg rem cs = some (e, cs2) →
          e = some .conflicting → cs2 = cs := by
        intro seg rem cs
        induction cs with
        | nil =>
            intro e cs2 h _
            exact Option.noConfusion h
        | cons c rest ihl =>
            intro e cs2 h he
            simp only [goStatic] at h
            split at h
            · split at h
              · obtain ⟨he1, he2⟩ := Prod.mk.injEq .. ▸ Option.some.inj h
                subst he1 he2
                rw [ih c rem r he]
              · obtain ⟨he1, he2⟩ := Prod.mk.injEq .. ▸ Option.some.inj h
                subst he1 he2
                rw [ih c _ r he]
            · split at h
              · rename_i e2 rest2 heq
                obtain ⟨he1, he2⟩ := Prod.mk.injEq .. ▸ Option.some.inj h
                rw [← he2, ihl e2 rest2 heq (he1.trans he)]
              · exact Option.noConfusion h
      simp only [insertRoute]
      split
      · split
        · intro _
          rfl
        · intro h
          exact Option.noConfusion h
      · split
        · split
          · rename_i e cs2 heq
            intro h
            rw [hgp _ _ _ _ _ heq h, withChildren_self]
          · intro h
            exact absurd h (insert_clean_no_conflict f _ _ _ _ _ _)
        · split
          · split
            · intro _
              rfl
            · intro h
              exact Option.noConfusion h
          · split
            · rename_i e cs2 heq
              intro h
              rw [hgs _ _ _ _ _ heq h, withChildren_self]
            · intro h
              exact absurd h (insert_clean_no_conflict f _ _ _ _ _ _)


/-- Every list is a prefix of itself. -/
theorem startsWith_refl (s : List Char) : startsWith s s = true := by
  have h := startsWith_append s []
  rwa [List.append_nil] at h

/-- Re-walking the parameter children with the same name and pattern after a
successful insertion finds the updated child again and turns the repeated
insertion's outcome into a conflict, leaving the list unchanged.  `ih` is
the fuel-level induction hypothesis of `insert_dup`. -/
theorem goParam_dup_aux {H} (f : Nat) (r r2 : route H)
    (ih : ∀ (node node2 : radixNode H) (p : List Char),
      insertRoute f node p r = (none, node2) →
      insertRoute f node2 p r2 = (some .conflicting, node2)) :
    ∀ (name rem : List Char) (cs : List (radixNode H)) (e : Option rerr)
      (cs2 : List (radixNode H)),
      goParam (fun n p2 => insertRoute f n p2 r) name rem cs = some (e, cs2) →
      e = none →
      goParam (fun n p2 => insertRoute f n p2 r2) name rem cs2 =
        some (some .conflicting, cs2) := by
  intro name rem cs
  induction cs with
  | nil =>
      intro e cs2 h _
      exact Option.noConfusion h
  | cons c rest ihl =>
      intro e cs2 h he
      simp only [goParam] at h
      split at h
      · rename_i hcond
        obtain ⟨he1, he2⟩ := Prod.mk.injEq .. ▸ Option.some.inj h
        subst he2
        have hfc : insertRoute f c rem r = (none, (insertRoute f c rem r).2) := by
          rw [Prod.ext_iff]
          exact ⟨he1.trans he, rfl⟩
        have hrec := ih c (insertRoute f c rem r).2 rem hfc
        have hmeta := insert_meta f c rem r
        simp only [goParam]
        rw [if_pos ⟨hmeta.2.1.trans hcond.1, hmeta.2.2.trans hcond.2⟩]
        rw [hrec]
      · split at h
        · rename_i hcond x e2 rest2 heq2
          obtain ⟨he1, he2⟩ := Prod.mk.injEq .. ▸ Option.some.inj h
          subst he2
          simp only [goParam]
          rw [if_neg hcond]
          rw [ihl e2 rest2 heq2 (he1.trans he)]
        · exact Option.noConfusion h


/-- Re-walking the static children with the same segment after a successful
insertion selects the same child and branch — insertion preserves each
child's path — and yields a conflict with the list unchanged. -/
theorem goStatic_dup_aux {H} (f : Nat) (r r2 : route H)
    (ih : ∀ (node node2 : radixNode H) (p : List Char),
      insertRoute f node p r = (none, node2) →
      insertRoute f node2 p r2 = (some .conflicting, node2)) :
    ∀ (seg rem : List Char) (cs : List (radixNode H)) (e : Option rerr)
      (cs2 : List (radixNode H)),
      goStatic (fun n p2 => insertRoute f n p2 r) seg rem cs = some (e, cs2) →
      e = none →
      goStatic (fun n p2 => insertRoute f n p2 r2) seg rem cs2 =
        some (some .conflicting, cs2) := by
  intro seg rem cs
  induction cs with
  | nil =>
      intro e cs2 h _
      exact Option.noConfusion h
  | cons c rest ihl =>
      intro e cs2 h he
      simp only [goStatic] at h
      split at h
      · rename_i hcond
        split at h
        · rename_i hlen
          obtain ⟨he1, he2⟩ := Prod.mk.injEq .. ▸ Option.some.inj h
          subst he2
          have hfc : insertRoute f c rem r = (none, (insertRoute f c rem r).2) := by
            rw [Prod.ext_iff]
            exact ⟨he1.trans he, rfl⟩
          have hrec := ih c (insertRoute f c rem r).2 rem hfc
          have hmeta := insert_meta f c rem r
          simp only [goStatic]
          rw [if_pos ⟨hmeta.2.1.trans hcond.1, by rw [hmeta.1]; exact hcond.2⟩]
          rw [if_pos (by rw [hmeta.1]; exact hlen)]
          rw [hrec]
        · rename_i hlen
          obtain ⟨he1, he2⟩ := Prod.mk.injEq .. ▸ Option.some.inj h
          subst he2
          have hfc : insertRoute f c (seg.drop c.path.length ++ '/' :: rem) r =
              (none, (insertRoute f c (seg.drop c.path.length ++ '/' :: rem) r).2) := by
            rw [Prod.ext_iff]
            exact ⟨he1.trans he, rfl⟩
          have hrec := ih c _ _ hfc
          have hmeta := insert_meta f c (seg.drop c.path.length ++ '/' :: rem) r
          simp only [goStatic]
          rw [if_pos ⟨hmeta.2.1.trans hcond.1, by rw [hmeta.1]; exact hcond.2⟩]
          rw [if_neg (by rw [hmeta.1]; exact hlen)]
          rw [hmeta.1, hrec]
      · rename_i hcond
        split at h
        · rename_i x e2 rest2 heq2
          obtain ⟨he1, he2⟩ := Prod.mk.injEq .. ▸ Option.some.inj h
          subst he2
          simp only [goStatic]
          rw [if_neg hcond]
          rw [ihl e2 rest2 heq2 (he1.trans he)]
        · exact Option.noConfusion h


/-- When no parameter child matched and a new one was appended, a second
walk skips the untouched prefix and lands exactly on the appended child. -/
theorem goParam_append_aux {H}
    (ins ins2 : radixNode H → List Char → Option rerr × radixNode H)
    (name rem : List Char) :
    ∀ (cs : List (radixNode H)), goParam ins name rem cs = none →
    ∀ (x : radixNode H), x.nType = .paramNode → x.paramName = name →
      goParam ins2 name rem (cs ++ [x]) =
        some ((ins2 x rem).1, cs ++ [(ins2 x rem).2]) := by
  intro cs
  induction cs with
  | nil =>
      intro _ x hx1 hx2
      simp only [List.nil_append, goParam]
      rw [if_pos ⟨hx1, hx2⟩]
  | cons c rest ihl =>
      intro h x hx1 hx2
      simp only [goParam] at h
      split at h
      · exact Option.noConfusion h
      · rename_i hcond
        split at h
        · exact Option.noConfusion h
        · rename_i x2 heq
          simp only [List.cons_append, List.append_eq, goParam]
          rw [if_neg hcond]
          rw [ihl heq x hx1 hx2]

/-- When no static child matched and a new one whose path is the whole
segment was appended, a second walk lands on it in the exact-match branch. -/
theorem goStatic_append_aux {H}
    (ins ins2 : radixNode H → List Char → Option rerr × radixNode H)
    (seg rem : List Char) :
    ∀ (cs : List (radixNode H)), goStatic ins seg rem cs = none →
    ∀ (x : radixNode H), x.nType = .staticNode → x.path = seg →
      goStatic ins2 seg rem (cs ++ [x]) =
        some ((ins2 x rem).1, cs ++ [(ins2 x rem).2]) := by
  intro cs
  induction cs with
  | nil =>
      intro _ x hx1 hx2
      simp only [List.nil_append, goStatic]
      rw [if_pos ⟨hx1, by rw [hx2]; exact startsWith_refl seg⟩]
      rw [if_pos (by rw [hx2])]
  | cons c rest ihl =>
      intro h x hx1 hx2
      simp only [goStatic] at h
      split at h
      · split at h
        · exact Option.noConfusion h
        · exact Option.noConfusion h
      · rename_i hcond
        split at h
        · exact Option.noConfusion h
        · rename_i x2 heq
          simp only [List.cons_append, List.append_eq, goStatic]
          rw [if_neg hcond]
          rw [ihl heq x hx1 hx2]


/-- Inserting the same pattern twice: if the first insertion succeeds, the
second — with any route payload — fails with the conflict error and returns
the tree unchanged.  The second descent deterministically retraces the
first: untouched children still fail their match conditions, the updated or
appended child still matches the same way, and the walk ends at the route or
wildcard the first insertion planted. -/
theorem insert_dup {H} :
    ∀ (f : Nat) (node node2 : radixNode H) (p : List Char) (r r2 : route H),
      insertRoute f node p r = (none, node2) →
      insertRoute f node2 p r2 = (some .conflicting, node2) := by
  intro f
  induction f with
  | zero =>
      intro node node2 p r r2 h
      exact Option.noConfusion (congrArg Prod.fst h)
  | succ f ih =>
      intro node node2 p r r2 h
      have ih2 : ∀ (n n2 : radixNode H) (q : List Char),
          insertRoute f n q r = (none, n2) →
          insertRoute f n2 q r2 = (some .conflicting, n2) :=
        fun n n2 q hh => ih n n2 q r r2 hh
      simp only [insertRoute] at h ⊢
      by_cases hp : trimSlash p = []
      · rw [if_pos hp] at h ⊢
        split at h
        · exact Option.noConfusion (congrArg Prod.fst h)
        · obtain ⟨-, h2⟩ := Prod.mk.injEq .. ▸ h
          subst h2
          rw [route_withRoute]
      · rw [if_neg hp] at h ⊢
        by_cases hcol : (splitPath (trimSlash p)).1.head? = some ':'
        · rw [if_pos hcol] at h ⊢
          split at h
          · rename_i e cs2 heq
            obtain ⟨h1, h2⟩ := Prod.mk.injEq .. ▸ h
            subst h2
            have hdup := goParam_dup_aux f r r2 ih2 _ _ _ _ _ heq h1
            rw [children_withChildren, hdup]
            dsimp only
            rw [withChildren_withChildren]
          · rename_i heq
            obtain ⟨h1, h2⟩ := Prod.mk.injEq .. ▸ h
            subst h2
            have heq2 : insertRoute f (freshParam ((splitPath (trimSlash p)).1.tail))
                ((splitPath (trimSlash p)).2) r =
                (none, (insertRoute f (freshParam ((splitPath (trimSlash p)).1.tail))
                  ((splitPath (trimSlash p)).2) r).2) := by
              rw [Prod.ext_iff]
              exact ⟨h1, rfl⟩
            have hmeta := insert_meta f (freshParam ((splitPath (trimSlash p)).1.tail))
              ((splitPath (trimSlash p)).2) r
            have happ := goParam_append_aux
              (fun n p2 => insertRoute f n p2 r) (fun n p2 => insertRoute f n p2 r2)
              ((splitPath (trimSlash p)).1.tail) ((splitPath (trimSlash p)).2)
              node.children heq _ hmeta.2.1 hmeta.2.2
            rw [children_withChildren, happ]
            dsimp only
            have hrec := ih2 _ _ _ heq2
            rw [hrec]
            dsimp only
            rw [withChildren_withChildren]
        · rw [if_neg hcol] at h ⊢
          by_cases hstar : (splitPath (trimSlash p)).1.head? = some '*'
          · rw [if_pos hstar] at h ⊢
            split at h
            · exact Option.noConfusion (congrArg Prod.fst h)
            · obtain ⟨-, h2⟩ := Prod.mk.injEq .. ▸ h
              subst h2
              rw [wildcard_withWildcard]
          · rw [if_neg hstar] at h ⊢
            split at h
            · rename_i e cs2 heq
              obtain ⟨h1, h2⟩ := Prod.mk.injEq .. ▸ h
              subst h2
              have hdup := goStatic_dup_aux f r r2 ih2 _ _ _ _ _ heq h1
              rw [children_withChildren, hdup]
              dsimp only
              rw [withChildren_withChildren]
            · rename_i heq
              obtain ⟨h1, h2⟩ := Prod.mk.injEq .. ▸ h
              subst h2
              have heq2 : insertRoute f (freshStatic ((splitPath (trimSlash p)).1))
                  ((splitPath (trimSlash p)).2) r =
                  (none, (insertRoute f (freshStatic ((splitPath (trimSlash p)).1))
                    ((splitPath (trimSlash p)).2) r).2) := by
                rw [Prod.ext_iff]
                exact ⟨h1, rfl⟩
              have hmeta := insert_meta f (freshStatic ((splitPath (trimSlash p)).1))
                ((splitPath (trimSlash p)).2) r
              have happ := goStatic_append_aux
                (fun n p2 => insertRoute f n p2 r) (fun n p2 => insertRoute f n p2 r2)
                ((splitPath (trimSlash p)).1) ((splitPath (trimSlash p)).2)
                node.children heq _ hmeta.2.1 hmeta.1
              rw [children_withChildren, happ]
              dsimp only
              have hrec := ih2 _ _ _ heq2
              rw [hrec]
              dsimp only
              rw [withChildren_withChildren]


/-- Looking up a method right after storing its tree finds that tree. -/
theorem lookupTree_setTree {H} (l : List (List Char × radixNode H)) (k : List Char)
    (v : radixNode H) : lookupTree (setTree l k v) k = some v := by
  induction l with
  | nil => simp [setTree, lookupTree]
  | cons kv rest ih =>
      obtain ⟨k0, v0⟩ := kv
      by_cases hk : k0 = k
      · simp [setTree, lookupTree, hk]
      · simp [setTree, lookupTree, hk, ih]

/-- Storing a method's tree twice keeps only the second store. -/
theorem setTree_setTree {H} (l : List (List Char × radixNode H)) (k : List Char)
    (v v2 : radixNode H) : setTree (setTree l k v) k v2 = setTree l k v2 := by
  induction l with
  | nil => simp [setTree]
  | cons kv rest ih =>
      obtain ⟨k0, v0⟩ := kv
      by_cases hk : k0 = k
      · simp [setTree, hk]
      · simp [setTree, hk, ih]

/-- Storing back the tree a method already maps to changes nothing. -/
theorem setTree_lookup_self {H} (l : List (List Char × radixNode H)) (k : List Char)
    (v : radixNode H) : lookupTree l k = some v → setTree l k v = l := by
  induction l with
  | nil =>
      intro h
      exact Option.noConfusion h
  | cons kv rest ih =>
      obtain ⟨k0, v0⟩ := kv
      intro h
      by_cases hk : k0 = k
      · simp only [lookupTree, if_pos hk] at h
        simp [setTree, hk, ← Option.some.inj h]
      · simp only [lookupTree, if_neg hk] at h
        simp [setTree, hk, ih h]

/-- `Register` twice with the identical (method, pattern): the second call
fails with the conflict error and returns the matcher — trees included —
exactly as the first call left it. -/
theorem register_dup {H} (f : Nat) (m m1 : radixMatcher H)
    (method pattern : List Char) (h h2 : H) :
    Register f m method pattern h = (none, m1) →
    Register f m1 method pattern h2 = (some .conflicting, m1) := by
  intro hr
  simp only [Register] at hr ⊢
  by_cases hc : m.compiled
  · rw [if_pos hc] at hr
    exact Option.noConfusion (congrArg Prod.fst hr)
  · rw [if_neg hc] at hr
    obtain ⟨h1, h2'⟩ := Prod.mk.injEq .. ▸ hr
    subst h2'
    rw [if_neg hc]
    rw [lookupTree_setTree, Option.getD_some]
    have hfull : insertRoute f ((lookupTree m.trees method).getD rootNode) pattern
        ⟨method, pattern, h⟩ =
        (none, (insertRoute f ((lookupTree m.trees method).getD rootNode) pattern
          ⟨method, pattern, h⟩).2) := by
      rw [Prod.ext_iff]
      exact ⟨h1, rfl⟩
    have hdup := insert_dup f _ _ pattern ⟨method, pattern, h⟩ ⟨method, pattern, h2⟩ hfull
    rw [hdup]
    dsimp only
    rw [setTree_setTree]

/-- Any `Register` call that reports a conflict leaves the matcher in
exactly the state it had before the call. -/
theorem register_conflict_atomic {H} (f : Nat) (m : radixMatcher H)
    (method pattern : List Char) (h : H) :
    (Register f m method pattern h).1 = some .conflicting →
    (Register f m method pattern h).2 = m := by
  intro hr
  simp only [Register] at hr ⊢
  by_cases hc : m.compiled
  · rw [if_pos hc] at hr
    exact absurd (Option.some.inj hr) (fun hh => rerr.noConfusion hh)
  · rw [if_neg hc] at hr ⊢
    cases hlk : lookupTree m.trees method with
    | none =>
        rw [hlk, Option.getD_none] at hr
        exact absurd hr (insert_clean_no_conflict f _ _ _ _ _ _)
    | some t =>
        rw [hlk, Option.getD_some] at hr
        rw [Option.getD_some]
        have hunch := insert_conflict_unchanged f t pattern ⟨method, pattern, h⟩ hr
        dsimp only
        rw [hunch, setTree_lookup_self m.trees method t hlk]


/-- **C8**: registering a second time with an identical (method, pattern)
pair fails with the conflict error and leaves the matcher — hence the route
tree — in exactly the state it had before the call; and the same atomicity
holds for every `Register` call that returns the conflict error. -/
theorem duplicate_registration_conflicts_atomically {H : Type} (f : Nat)
    (m m1 : radixMatcher H) (method pattern : List Char) (h h2 : H) :
    (Register f m method pattern h = (none, m1) →
      Register f m1 method pattern h2 = (some .conflicting, m1)) ∧
    ((Register f m method pattern h).1 = some .conflicting →
      (Register f m method pattern h).2 = m) :=
  ⟨register_dup f m m1 method pattern h h2,
    register_conflict_atomic f m method pattern h⟩

/-- Witness for **C8**: registering GET `/users/:id` on the empty matcher
succeeds, registering it again conflicts and returns the matcher unchanged,
and the conflicting call's matcher equals the one before it. -/
theorem duplicate_registration_witness :
    Register 20 mUsersId mGET "/users/:id".data 8 = (some .conflicting, mUsersId) ∧
    (Register 20 mUsersId mGET "/users/:id".data 8).2 = mUsersId :=
  have hfirst : Register 20 emptyN mGET "/users/:id".data 7 = (none, mUsersId) := rfl
  ⟨(duplicate_registration_conflicts_atomically 20 emptyN mUsersId mGET
      "/users/:id".data 7 8).1 hfirst,
    (duplicate_registration_conflicts_atomically 20 mUsersId mUsersId mGET
      "/users/:id".data 8 8).2 rfl⟩

end Cosan
